import Mathlib

/-!
Shallow embedding of the ClickUp export tool (Python) in Lean 4, together
with theorems checking the natural-language specification against the code.

Python floats are modelled by exact rationals (`ℚ`); Python's `round(x, 2)`
is modelled by round-half-to-even at two decimal places (`round2`).
Python dictionaries (insertion ordered) are modelled by association lists
with the update-in-place / append-if-new semantics of `dict.__setitem__`
(`dictInsert`).  Strings are Lean `String`s; sheet names are lists of
characters so that slicing can be stated exactly.
-/

namespace ClickUpExport

/-- Round a rational to the nearest integer, ties to even
(the behaviour of Python's builtin `round`). -/
def rne (x : ℚ) : ℤ :=
  if x - ⌊x⌋ < 1/2 then ⌊x⌋
  else if 1/2 < x - ⌊x⌋ then ⌊x⌋ + 1
  else if ⌊x⌋ % 2 = 0 then ⌊x⌋ else ⌊x⌋ + 1

/-- Python's `round(q, 2)` over exact rationals. -/
def round2 (q : ℚ) : ℚ := (rne (q * 100) : ℚ) / 100

/-! ### src/models/data_models.py -/

/-- Embeds `data_models.Task` (the fields relevant to time tracking;
`time_spent` and `time_estimate` are in milliseconds). -/
structure Task where
  id : String
  name : String
  status : String
  description : String := ""
  list_name : String := ""
  list_id : String := ""
  folder_name : String := ""
  folder_id : String := ""
  time_spent : ℤ := 0
  time_estimate : ℤ := 0
  points : ℤ := 0
  url : String := ""
deriving DecidableEq

/-- Embeds `Task.hours_spent`: `round(time_spent / (1000*60*60), 2) if time_spent > 0 else 0`. -/
def Task.hours_spent (t : Task) : ℚ :=
  if t.time_spent > 0 then round2 ((t.time_spent : ℚ) / (1000 * 60 * 60)) else 0

/-- Embeds `Task.hours_estimated`: `round(time_estimate / (1000*60*60), 2) if time_estimate > 0 else 0`. -/
def Task.hours_estimated (t : Task) : ℚ :=
  if t.time_estimate > 0 then round2 ((t.time_estimate : ℚ) / (1000 * 60 * 60)) else 0

/-! ### src/models/time_entry.py -/

/-- Embeds `time_entry.TimeEntry`: `start` is kept as the raw millisecond timestamp
(`datetime.fromtimestamp(int(...)/1000)` stores the same instant). -/
structure TimeEntryRec where
  id : String
  start_ms : ℤ
  duration_ms : ℤ
  task_name : String
  task_url : String
  description : String
  delivery_name : String
  workpackage_name : String
deriving DecidableEq

/-- Embeds `TimeEntry.duration_hours`: `round(duration_ms / (1000*60*60), 2)`. -/
def TimeEntryRec.duration_hours (e : TimeEntryRec) : ℚ :=
  round2 ((e.duration_ms : ℚ) / (1000 * 60 * 60))

/-- The `entry_data.get('task', {})` sub-object of a ClickUp API time entry. -/
structure TaskData where
  name : Option String
deriving DecidableEq

/-- The `entry_data.get('task_location', {})` sub-object. -/
structure TaskLocationData where
  space_name : Option String
  list_name : Option String
deriving DecidableEq

/-- A raw API time entry as read by `TimeEntry.from_api_response`
(absent JSON keys are `none`). -/
structure EntryData where
  id : Option String := none
  start : Option ℤ := none
  duration : Option ℤ := none
  task : Option TaskData := none
  task_url : Option String := none
  description : Option String := none
  task_location : Option TaskLocationData := none
deriving DecidableEq

/-- Embeds `TimeEntry.from_api_response`. -/
def TimeEntryRec.from_api_response (d : EntryData) : TimeEntryRec :=
  let task_location := d.task_location.getD { space_name := none, list_name := none }
  let task_data := d.task.getD { name := none }
  { id := d.id.getD ""
    start_ms := d.start.getD 0
    duration_ms := d.duration.getD 0
    task_name := task_data.name.getD "No Task"
    task_url := d.task_url.getD ""
    description := d.description.getD ""
    delivery_name := task_location.space_name.getD "Unknown Workspace"
    workpackage_name := task_location.list_name.getD "Unknown List" }

/-! ### src/models/user.py and src/models/workspace.py -/

/-- Embeds `user.User`. -/
structure UserRec where
  id : String
  username : String
  email : String := ""
deriving DecidableEq

/-- A `member.get('user', {})` sub-object of a team in the `GET /team` response. -/
structure TeamMemberData where
  userId : Option String
  username : Option String
  email : Option String
deriving DecidableEq

/-- A team object of the `GET /team` response. -/
structure TeamData where
  id : Option String
  name : Option String
  members : List TeamMemberData
deriving DecidableEq

/-- Embeds `User.from_api_response`. -/
def UserRec.from_api_response (u : TeamMemberData) : UserRec :=
  { id := u.userId.getD ""
    username := u.username.getD "Unknown"
    email := u.email.getD "" }

/-- Embeds `workspace.Workspace`. -/
structure WorkspaceRec where
  id : String
  name : String
  members : List UserRec
deriving DecidableEq

/-- Python truthiness of `user_info.get('id')` (absent or empty string is falsy). -/
def truthyId : Option String → Bool
  | none => false
  | some s => !s.isEmpty

/-- Embeds `Workspace.from_api_response`: keeps only members whose user id is truthy. -/
def WorkspaceRec.from_api_response (t : TeamData) : WorkspaceRec :=
  { id := t.id.getD ""
    name := t.name.getD "Unknown"
    members := (t.members.filter fun m => truthyId m.userId).map UserRec.from_api_response }

/-! ### src/core/clickup_client.py

HTTP is modelled as a pure responder `HttpRequest → HttpResponse`; each client
method returns its result together with the list of requests it issued, so
that "no request is made" is a statement about the output.  The JSON body is
modelled pre-split: `teams` stands for `response.json().get('teams', [])` and
`entries` for `response.json().get('data', [])`. -/

/-- An HTTP GET request (URL and query parameters). -/
structure HttpRequest where
  url : String
  params : List (String × String)
deriving DecidableEq

/-- An HTTP response: status code, raw text, and the parsed JSON body views. -/
structure HttpResponse where
  status : ℕ
  text : String
  teams : List TeamData
  entries : List EntryData

/-- Embeds `CLICKUP_API_BASE_URL` from src/config.py. -/
def CLICKUP_API_BASE_URL : String := "https://api.clickup.com/api/v2"

/-- Python falsiness of `self.auth_token` (`None` or the empty string). -/
def tokenUnset : Option String → Bool
  | none => true
  | some s => s.isEmpty

/-- The request issued by `get_workspaces`. -/
def teamRequest : HttpRequest :=
  { url := CLICKUP_API_BASE_URL ++ "/team", params := [] }

/-- The request issued by `get_time_entries`. -/
def timeEntriesRequest (workspace_id user_id : String)
    (start_timestamp end_timestamp : ℤ) : HttpRequest :=
  { url := CLICKUP_API_BASE_URL ++ "/team/" ++ workspace_id ++ "/time_entries"
    params := [("assignee", user_id),
               ("start_date", toString start_timestamp),
               ("end_date", toString end_timestamp),
               ("include_task_tags", "true"),
               ("include_location_names", "true"),
               ("include_approval_history", "false")] }

/-- Embeds `ClickUpClient.get_workspaces`, returning the result and the issued requests. -/
def get_workspaces (token : Option String) (http : HttpRequest → HttpResponse) :
    Except String (List WorkspaceRec) × List HttpRequest :=
  if tokenUnset token then (.error "Authentication token not set", [])
  else
    let req : HttpRequest := teamRequest
    let resp := http req
    if resp.status ≠ 200 then
      (.error ("Failed to fetch workspaces: " ++ toString resp.status ++ " - " ++ resp.text), [req])
    else
      (.ok (resp.teams.map WorkspaceRec.from_api_response), [req])

/-- Embeds `ClickUpClient.get_time_entries`, returning the result and the issued
requests; `start_timestamp`/`end_timestamp` are the millisecond timestamps
computed from the dates. -/
def get_time_entries (token : Option String) (http : HttpRequest → HttpResponse)
    (workspace_id user_id : String) (start_timestamp end_timestamp : ℤ) :
    Except String (List TimeEntryRec) × List HttpRequest :=
  if tokenUnset token then (.error "Authentication token not set", [])
  else
    let req : HttpRequest := timeEntriesRequest workspace_id user_id start_timestamp end_timestamp
    let resp := http req
    if resp.status ≠ 200 then
      (.error ("Failed to fetch time entries: " ++ toString resp.status ++ " - " ++ resp.text), [req])
    else
      (.ok (resp.entries.map TimeEntryRec.from_api_response), [req])

/-! ### src/core/time_entry_manager.py

`TimeEntryManager` accesses `entry.workspace_name`, `entry.list_name`,
`entry.task_name` and `entry.duration_hours` on each fetched entry; `MEntry`
is exactly that view of an entry.  `self.all_user_entries` is a Python dict
keyed by username, modelled by an association list with dict semantics. -/

/-- A time entry as consumed by `TimeEntryManager`. -/
structure MEntry where
  workspace_name : String
  list_name : String
  task_name : String
  duration_hours : ℚ
deriving DecidableEq

/-- One value of `self.all_user_entries`: the user object, the entry list,
and the error message recorded when the fetch raised. -/
structure UserData where
  user_info : UserRec
  entries : List MEntry
  error : Option String := none
deriving DecidableEq

/-- A Python dict with `String` keys, as an insertion-ordered association list. -/
abbrev Dict (α : Type) := List (String × α)

/-- Embeds `d[k] = v` on a Python dict: update in place if the key exists,
append otherwise. -/
def dictInsert {α : Type} (d : Dict α) (k : String) (v : α) : Dict α :=
  match d with
  | [] => [(k, v)]
  | (k₀, v₀) :: rest => if k₀ = k then (k₀, v) :: rest else (k₀, v₀) :: dictInsert rest k v

/-- Embeds `d.get(k)` / `k in d` on a Python dict. -/
def dictLookup {α : Type} (d : Dict α) (k : String) : Option α :=
  match d with
  | [] => none
  | (k₀, v₀) :: rest => if k₀ = k then some v₀ else dictLookup rest k

/-- Embeds `TimeEntryManager.fetch_entries_for_users`: the per-user API call is the
parameter `fetch`; an exception is an `Except.error`.  A failed fetch records
the user with an empty entry list and the error string, and the loop goes on. -/
def fetch_entries_for_users (fetch : UserRec → Except String (List MEntry))
    (users : List UserRec) : Dict UserData :=
  users.foldl
    (fun d u =>
      match fetch u with
      | .ok es => dictInsert d u.username { user_info := u, entries := es, error := none }
      | .error e => dictInsert d u.username { user_info := u, entries := [], error := some e })
    []

/-- The value `fetch_entries_for_users` stores for a user `u`. -/
def fetchRecord (fetch : UserRec → Except String (List MEntry)) (u : UserRec) : UserData :=
  match fetch u with
  | .ok es => { user_info := u, entries := es, error := none }
  | .error e => { user_info := u, entries := [], error := some e }

/-- A row of `get_user_summary` (dict keys Person Name / Total Entries /
Total Hours / Email). -/
structure UserSummaryRow where
  person_name : String
  total_entries : ℕ
  total_hours : ℚ
  email : String
deriving DecidableEq

/-- Embeds `sum(entry.duration_hours for entry in entries)`. -/
def userHours (es : List MEntry) : ℚ := (es.map (·.duration_hours)).sum

/-- Embeds `TimeEntryManager.get_user_summary`: one row per mapping item,
then a TOTAL row with the rounded hour total. -/
def get_user_summary (d : Dict UserData) : List UserSummaryRow :=
  (d.map fun p =>
    { person_name := p.1
      total_entries := p.2.entries.length
      total_hours := userHours p.2.entries
      email := p.2.user_info.email })
  ++ [{ person_name := "TOTAL"
        total_entries := (d.map fun p => p.2.entries.length).sum
        total_hours := round2 ((d.map fun p => userHours p.2.entries).sum)
        email := "" }]

/-! #### create_hierarchical_summary -/

/-- A row of the hierarchical summary (dict keys Level / Workspace / List /
Task / Member / Hours / Entries).  `Hours` and `Entries` start as the empty
string in header rows and are back-filled later; the empty string is `none`. -/
structure Row where
  level : String
  workspace : String
  list_name : String
  task : String
  member : String
  hours : Option ℚ
  entries : Option ℕ
deriving DecidableEq

/-- Embeds `row['Hours'] = round(hours, 2)` and, when `entries` was passed,
`row['Entries'] = entries`. -/
def updRow (r : Row) (hours : ℚ) (entries : Option ℕ) : Row :=
  { r with hours := some (round2 hours)
           entries := match entries with | some n => some n | none => r.entries }

/-- Does `row` match the level/workspace/list/task tuple of
`_update_summary_totals`? -/
def rowMatches (level workspace list_name task : String) (r : Row) : Bool :=
  r.level = level && r.workspace = workspace && r.list_name = list_name && r.task = task

/-- Embeds `TimeEntryManager._update_summary_totals`: scan the rows from the end,
update the first match (i.e. the last matching row) and stop.  Returns the
updated list and whether a match was found. -/
def update_summary_totals (rows : List Row)
    (level workspace list_name task : String) (hours : ℚ) (entries : Option ℕ) :
    List Row × Bool :=
  match rows with
  | [] => ([], false)
  | r :: rest =>
      let p := update_summary_totals rest level workspace list_name task hours entries
      if p.2 then (r :: p.1, true)
      else if rowMatches level workspace list_name task r then
        (updRow r hours entries :: rest, true)
      else (r :: rest, false)

/-- The (username, entry) pairs the hierarchy is built from, in the order the
double loop of `create_hierarchical_summary` visits them. -/
def allPairs (d : Dict UserData) : List (String × MEntry) :=
  d.flatMap fun p => p.2.entries.map fun e => (p.1, e)

/-- Insert a name into a strictly increasing list of names, keeping it
strictly increasing (no duplicate is created).  The comparison is the
code-point lexicographic order on the character lists — the order Python's
`sorted` uses on `str`, and equivalent to `<` on `String`
(`String.lt_iff_toList_lt`). -/
def insertName (x : String) : List String → List String
  | [] => [x]
  | y :: l =>
      if x = y then y :: l
      else if x.data < y.data then x :: y :: l
      else y :: insertName x l

/-- Embeds `sorted(keys)`: the distinct names of a list, in increasing lexicographic
order (Python `sorted` over the keys of a dict built from these names). -/
def sortedNames (l : List String) : List String :=
  l.foldr insertName []

/-- The keys of `hierarchy` visited by the workspace loop, in order. -/
def wsNames (pairs : List (String × MEntry)) : List String :=
  sortedNames (pairs.map fun p => p.2.workspace_name)

/-- The keys of `hierarchy[w]` visited by the list loop, in order. -/
def listNames (pairs : List (String × MEntry)) (w : String) : List String :=
  sortedNames ((pairs.filter fun p => p.2.workspace_name = w).map fun p => p.2.list_name)

/-- The keys of `hierarchy[w][l]` visited by the task loop, in order. -/
def taskNames (pairs : List (String × MEntry)) (w l : String) : List String :=
  sortedNames ((pairs.filter fun p =>
    p.2.workspace_name = w ∧ p.2.list_name = l).map fun p => p.2.task_name)

/-- The keys of `hierarchy[w][l][t]` visited by the member loop, in order. -/
def memberNames (pairs : List (String × MEntry)) (w l t : String) : List String :=
  sortedNames ((pairs.filter fun p =>
    p.2.workspace_name = w ∧ p.2.list_name = l ∧ p.2.task_name = t).map fun p => p.1)

/-- Embeds `hierarchy[w][l][t][m]`: the accumulated duration hours of member `m`
on task `t` of list `l` of workspace `w`. -/
def memberHours (pairs : List (String × MEntry)) (w l t m : String) : ℚ :=
  ((pairs.filter fun p =>
    p.2.workspace_name = w ∧ p.2.list_name = l ∧ p.2.task_name = t ∧ p.1 = m).map
      fun p => p.2.duration_hours).sum

/-- Embeds `TimeEntryManager._count_entries`. -/
def count_entries (d : Dict UserData) (member_name workspace list_name task : String) : ℕ :=
  match dictLookup d member_name with
  | none => 0
  | some data =>
      (data.entries.filter fun e =>
        e.workspace_name = workspace ∧ e.list_name = list_name ∧ e.task_name = task).length

/-- The workspace header row as first appended (Hours/Entries empty). -/
def wsHeader (w : String) : Row :=
  { level := "WORKSPACE", workspace := w, list_name := "", task := "", member := ""
    hours := none, entries := none }

/-- The list header row as first appended. -/
def listHeader (w l : String) : Row :=
  { level := "LIST", workspace := w, list_name := l, task := "", member := ""
    hours := none, entries := none }

/-- The task header row as first appended. -/
def taskHeader (w l t : String) : Row :=
  { level := "TASK", workspace := w, list_name := l, task := t, member := ""
    hours := none, entries := none }

/-- A member detail row (Hours rounded on append). -/
def memberRow (w l t m : String) (hours : ℚ) (entries : ℕ) : Row :=
  { level := "MEMBER", workspace := w, list_name := l, task := t, member := m
    hours := some (round2 hours), entries := some entries }

/-- The grand-total row. -/
def grandRow (hours : ℚ) (entries : ℕ) : Row :=
  { level := "GRAND TOTAL", workspace := "", list_name := "", task := "", member := ""
    hours := some (round2 hours), entries := some entries }

/-- The body of the member loop: append the member row, accumulate
`task_total` (unrounded) and `task_entries`. -/
def memberStep (pairs : List (String × MEntry)) (d : Dict UserData) (w l t : String)
    (acc : List Row × ℚ × ℕ) (m : String) : List Row × ℚ × ℕ :=
  let mh := memberHours pairs w l t m
  let me := count_entries d m w l t
  (acc.1 ++ [memberRow w l t m mh me], acc.2.1 + mh, acc.2.2 + me)

/-- The body of the task loop: header, member loop, back-fill the task
header, accumulate `list_total`. -/
def taskStep (pairs : List (String × MEntry)) (d : Dict UserData) (w l : String)
    (acc : List Row × ℚ) (t : String) : List Row × ℚ :=
  let r := (memberNames pairs w l t).foldl (memberStep pairs d w l t)
    (acc.1 ++ [taskHeader w l t], 0, 0)
  ((update_summary_totals r.1 "TASK" w l t r.2.1 (some r.2.2)).1, acc.2 + r.2.1)

/-- The body of the list loop: header, task loop, back-fill the list header,
accumulate `workspace_total`. -/
def listStep (pairs : List (String × MEntry)) (d : Dict UserData) (w : String)
    (acc : List Row × ℚ) (l : String) : List Row × ℚ :=
  let r := (taskNames pairs w l).foldl (taskStep pairs d w l) (acc.1 ++ [listHeader w l], 0)
  ((update_summary_totals r.1 "LIST" w l "" r.2 none).1, acc.2 + r.2)

/-- The body of the workspace loop: header, list loop, back-fill the
workspace header, accumulate `grand_total_hours`. -/
def wsStep (pairs : List (String × MEntry)) (d : Dict UserData)
    (acc : List Row × ℚ) (w : String) : List Row × ℚ :=
  let r := (listNames pairs w).foldl (listStep pairs d w) (acc.1 ++ [wsHeader w], 0)
  ((update_summary_totals r.1 "WORKSPACE" w "" "" r.2 none).1, acc.2 + r.2)

/-- Embeds `TimeEntryManager.create_hierarchical_summary`. -/
def create_hierarchical_summary (d : Dict UserData) : List Row :=
  let pairs := allPairs d
  let r := (wsNames pairs).foldl (wsStep pairs d) ([], 0)
  r.1 ++ [grandRow r.2 ((d.map fun p => p.2.entries.length).sum)]

/-! #### The closed form the imperative build is proved equal to -/

/-- The unrounded total of a task group. -/
def taskTotal (pairs : List (String × MEntry)) (w l t : String) : ℚ :=
  ((memberNames pairs w l t).map (memberHours pairs w l t)).sum

/-- The entry count of a task group. -/
def taskEntries (pairs : List (String × MEntry)) (d : Dict UserData) (w l t : String) : ℕ :=
  ((memberNames pairs w l t).map fun m => count_entries d m w l t).sum

/-- The unrounded total of a list group. -/
def listTotal (pairs : List (String × MEntry)) (w l : String) : ℚ :=
  ((taskNames pairs w l).map (taskTotal pairs w l)).sum

/-- The unrounded total of a workspace group. -/
def wsTotal (pairs : List (String × MEntry)) (w : String) : ℚ :=
  ((listNames pairs w).map (listTotal pairs w)).sum

/-- The unrounded grand total. -/
def grandTotal (pairs : List (String × MEntry)) : ℚ :=
  ((wsNames pairs).map (wsTotal pairs)).sum

/-- The rows of a task group in the finished summary: the back-filled task
header followed by its member rows. -/
def taskBlock (pairs : List (String × MEntry)) (d : Dict UserData) (w l t : String) :
    List Row :=
  { taskHeader w l t with
      hours := some (round2 (taskTotal pairs w l t))
      entries := some (taskEntries pairs d w l t) } ::
    (memberNames pairs w l t).map fun m =>
      memberRow w l t m (memberHours pairs w l t m) (count_entries d m w l t)

/-- The rows of a list group in the finished summary. -/
def listBlock (pairs : List (String × MEntry)) (d : Dict UserData) (w l : String) :
    List Row :=
  { listHeader w l with hours := some (round2 (listTotal pairs w l)) } ::
    (taskNames pairs w l).flatMap (taskBlock pairs d w l)

/-- The rows of a workspace group in the finished summary. -/
def wsBlock (pairs : List (String × MEntry)) (d : Dict UserData) (w : String) : List Row :=
  { wsHeader w with hours := some (round2 (wsTotal pairs w)) } ::
    (listNames pairs w).flatMap (listBlock pairs d w)

/-- The closed form of the whole hierarchical summary. -/
def summaryClosedForm (d : Dict UserData) : List Row :=
  let pairs := allPairs d
  (wsNames pairs).flatMap (wsBlock pairs d) ++
    [grandRow (grandTotal pairs) ((d.map fun p => p.2.entries.length).sum)]

/-! ### src/utils/excel_exporter.py : _make_safe_sheet_name -/

/-- Embeds `MAX_SHEET_NAME_LENGTH` from src/config/settings.py. -/
def MAX_SHEET_NAME_LENGTH : ℕ := 31

/-- The `invalid_chars` list of `_make_safe_sheet_name`. -/
def invalid_chars : List Char := ['\\', '/', '*', '?', ':', '[', ']']

/-- One `str.replace(char, '_')` step (single-character pattern). -/
def replaceAllChar (s : List Char) (a b : Char) : List Char :=
  s.map fun c => if c = a then b else c

/-- Embeds `ExcelExporter._make_safe_sheet_name` over the characters of the name. -/
def make_safe_sheet_name (name : List Char) : List Char :=
  let safe_name := invalid_chars.foldl (fun s c => replaceAllChar s c '_') name
  if safe_name.length > MAX_SHEET_NAME_LENGTH then
    safe_name.take (MAX_SHEET_NAME_LENGTH - 3) ++ ['.', '.', '.']
  else safe_name


/-! ### The spec's depth-first walk, as a key sequence -/

/-- The level and grouping fields of a row (everything but Hours/Entries). -/
def rowKey (r : Row) : String × String × String × String × String :=
  (r.level, r.workspace, r.list_name, r.task, r.member)

/-- The specification side of the refinement: the row-key sequence described
by the spec as a depth-first walk of the four-level grouping
workspace → list → task → member, siblings in sorted order, each header
before its children, one grand-total key last. -/
def dfsWalk (d : Dict UserData) : List (String × String × String × String × String) :=
  let pairs := allPairs d
  ((wsNames pairs).flatMap fun w =>
    ("WORKSPACE", w, "", "", "") ::
      ((listNames pairs w).flatMap fun l =>
        ("LIST", w, l, "", "") ::
          ((taskNames pairs w l).flatMap fun t =>
            ("TASK", w, l, t, "") ::
              ((memberNames pairs w l t).map fun m => ("MEMBER", w, l, t, m)))))
    ++ [("GRAND TOTAL", "", "", "", "")]


/-! ### Concrete data for counterexamples and witnesses -/

/-- An entry of 1.004 hours (a raw duration not already on a 2-decimal
grid, as `create_hierarchical_summary` accepts). -/
def entry1004 : MEntry :=
  { workspace_name := "W", list_name := "L", task_name := "T", duration_hours := 1004/1000 }

/-- A sample user. -/
def userAlice : UserRec := { id := "1", username := "alice", email := "a@x" }

/-- A second sample user. -/
def userBob : UserRec := { id := "2", username := "bob", email := "b@x" }

/-- Two users, each with one 1.004-hour entry on the same task. -/
def exDict : Dict UserData :=
  [("alice", { user_info := userAlice, entries := [entry1004] }),
   ("bob", { user_info := userBob, entries := [entry1004] })]

/-- A mapping with one user whose fetch returned no entries. -/
def exDictEmpty : Dict UserData :=
  [("carol", { user_info := { id := "3", username := "carol", email := "c@x" }, entries := [] })]

/-- A fetcher that succeeds for alice and raises for everyone else. -/
def exFetch : UserRec → Except String (List MEntry) := fun u =>
  if u.username = "alice" then .ok [entry1004] else .error "boom"


/-! ### Lemmas about `update_summary_totals` -/

theorem ust_no_match (rows : List Row) (lv w l t : String) (h : ℚ) (e : Option ℕ)
    (hnm : ∀ r ∈ rows, rowMatches lv w l t r = false) :
    update_summary_totals rows lv w l t h e = (rows, false) := by
  induction rows with
  | nil => rfl
  | cons r rest ih =>
      have hr := hnm r (List.mem_cons_self r rest)
      have hrest : ∀ x ∈ rest, rowMatches lv w l t x = false :=
        fun x hx => hnm x (List.mem_cons_of_mem r hx)
      simp [update_summary_totals, ih hrest, hr]

theorem ust_append_found (l₁ l₂ : List Row) (lv w l t : String) (h : ℚ) (e : Option ℕ)
    (hf : (update_summary_totals l₂ lv w l t h e).2 = true) :
    update_summary_totals (l₁ ++ l₂) lv w l t h e =
      (l₁ ++ (update_summary_totals l₂ lv w l t h e).1, true) := by
  induction l₁ with
  | nil => simp [← hf]
  | cons r rest ih => simp [update_summary_totals, ih]

theorem ust_target (l₁ l₂ : List Row) (r : Row) (lv w l t : String) (h : ℚ) (e : Option ℕ)
    (hr : rowMatches lv w l t r = true)
    (hnm : ∀ x ∈ l₂, rowMatches lv w l t x = false) :
    update_summary_totals (l₁ ++ r :: l₂) lv w l t h e =
      (l₁ ++ updRow r h e :: l₂, true) := by
  have h₂ : update_summary_totals (r :: l₂) lv w l t h e = (updRow r h e :: l₂, true) := by
    simp [update_summary_totals, ust_no_match l₂ lv w l t h e hnm, hr]
  rw [ust_append_found l₁ (r :: l₂) lv w l t h e (by rw [h₂]), h₂]

/-! ### Levels of the rows of each block -/

theorem taskBlock_levels (pairs : List (String × MEntry)) (d : Dict UserData)
    (w l t : String) (r : Row) (hr : r ∈ taskBlock pairs d w l t) :
    r.level = "TASK" ∨ r.level = "MEMBER" := by
  rcases List.mem_cons.mp hr with rfl | hr
  · left; rfl
  · right
    rcases List.mem_map.mp hr with ⟨m, _, rfl⟩
    rfl

theorem listBlock_levels (pairs : List (String × MEntry)) (d : Dict UserData)
    (w l : String) (r : Row) (hr : r ∈ listBlock pairs d w l) :
    r.level = "LIST" ∨ r.level = "TASK" ∨ r.level = "MEMBER" := by
  rcases List.mem_cons.mp hr with rfl | hr
  · left; rfl
  · rcases List.mem_flatMap.mp hr with ⟨t, _, ht⟩
    right; exact taskBlock_levels pairs d w l t r ht

theorem wsBlock_levels (pairs : List (String × MEntry)) (d : Dict UserData)
    (w : String) (r : Row) (hr : r ∈ wsBlock pairs d w) :
    r.level = "WORKSPACE" ∨ r.level = "LIST" ∨ r.level = "TASK" ∨ r.level = "MEMBER" := by
  rcases List.mem_cons.mp hr with rfl | hr
  · left; rfl
  · rcases List.mem_flatMap.mp hr with ⟨l, _, hl⟩
    right; exact listBlock_levels pairs d w l r hl

/-! ### The loops in closed form -/

theorem memberFold (pairs : List (String × MEntry)) (d : Dict UserData) (w l t : String) :
    ∀ (ms : List String) (sd : List Row) (t₀ : ℚ) (e₀ : ℕ),
    ms.foldl (memberStep pairs d w l t) (sd, t₀, e₀) =
      (sd ++ ms.map (fun m =>
          memberRow w l t m (memberHours pairs w l t m) (count_entries d m w l t)),
       t₀ + (ms.map (memberHours pairs w l t)).sum,
       e₀ + (ms.map fun m => count_entries d m w l t).sum) := by
  intro ms
  induction ms with
  | nil => intro sd t₀ e₀; simp
  | cons m ms ih =>
      intro sd t₀ e₀
      simp only [List.foldl_cons, memberStep, ih, List.map_cons, List.sum_cons]
      simp [add_assoc]

theorem taskStepEq (pairs : List (String × MEntry)) (d : Dict UserData) (w l : String)
    (sd : List Row) (a : ℚ) (t : String) :
    taskStep pairs d w l (sd, a) t = (sd ++ taskBlock pairs d w l t, a + taskTotal pairs w l t) := by
  simp only [taskStep, memberFold, zero_add]
  have hsplit : sd ++ [taskHeader w l t] ++ ((memberNames pairs w l t).map fun m =>
      memberRow w l t m (memberHours pairs w l t m) (count_entries d m w l t)) =
      sd ++ taskHeader w l t :: ((memberNames pairs w l t).map fun m =>
      memberRow w l t m (memberHours pairs w l t m) (count_entries d m w l t)) := by
    simp
  rw [hsplit, ust_target _ _ _ _ _ _ _ _ _ (by simp [rowMatches, taskHeader])
    (by intro x hx
        rcases List.mem_map.mp hx with ⟨m, _, rfl⟩
        simp [rowMatches, memberRow])]
  simp [updRow, taskHeader, taskBlock, taskTotal, taskEntries]

theorem taskFold (pairs : List (String × MEntry)) (d : Dict UserData) (w l : String) :
    ∀ (ts : List String) (sd : List Row) (a : ℚ),
    ts.foldl (taskStep pairs d w l) (sd, a) =
      (sd ++ ts.flatMap (taskBlock pairs d w l),
       a + (ts.map (taskTotal pairs w l)).sum) := by
  intro ts
  induction ts with
  | nil => intro sd a; simp
  | cons t ts ih =>
      intro sd a
      simp only [List.foldl_cons, taskStepEq, ih, List.flatMap_cons, List.map_cons,
        List.sum_cons, List.append_assoc, add_assoc]

theorem listStepEq (pairs : List (String × MEntry)) (d : Dict UserData) (w : String)
    (sd : List Row) (a : ℚ) (l : String) :
    listStep pairs d w (sd, a) l = (sd ++ listBlock pairs d w l, a + listTotal pairs w l) := by
  simp only [listStep, taskFold, zero_add]
  have hsplit : sd ++ [listHeader w l] ++ ((taskNames pairs w l).flatMap (taskBlock pairs d w l)) =
      sd ++ listHeader w l :: ((taskNames pairs w l).flatMap (taskBlock pairs d w l)) := by
    simp
  rw [hsplit, ust_target _ _ _ _ _ _ _ _ _ (by simp [rowMatches, listHeader])
    (by intro x hx
        rcases List.mem_flatMap.mp hx with ⟨t, _, ht⟩
        rcases taskBlock_levels pairs d w l t x ht with h | h <;>
          simp [rowMatches, h])]
  simp [updRow, listHeader, listBlock, listTotal]

theorem listFold (pairs : List (String × MEntry)) (d : Dict UserData) (w : String) :
    ∀ (ls : List String) (sd : List Row) (a : ℚ),
    ls.foldl (listStep pairs d w) (sd, a) =
      (sd ++ ls.flatMap (listBlock pairs d w),
       a + (ls.map (listTotal pairs w)).sum) := by
  intro ls
  induction ls with
  | nil => intro sd a; simp
  | cons l ls ih =>
      intro sd a
      simp only [List.foldl_cons, listStepEq, ih, List.flatMap_cons, List.map_cons,
        List.sum_cons, List.append_assoc, add_assoc]

theorem wsStepEq (pairs : List (String × MEntry)) (d : Dict UserData)
    (sd : List Row) (a : ℚ) (w : String) :
    wsStep pairs d (sd, a) w = (sd ++ wsBlock pairs d w, a + wsTotal pairs w) := by
  simp only [wsStep, listFold, zero_add]
  have hsplit : sd ++ [wsHeader w] ++ ((listNames pairs w).flatMap (listBlock pairs d w)) =
      sd ++ wsHeader w :: ((listNames pairs w).flatMap (listBlock pairs d w)) := by
    simp
  rw [hsplit, ust_target _ _ _ _ _ _ _ _ _ (by simp [rowMatches, wsHeader])
    (by intro x hx
        rcases List.mem_flatMap.mp hx with ⟨l, _, hl⟩
        rcases listBlock_levels pairs d w l x hl with h | h | h <;>
          simp [rowMatches, h])]
  simp [updRow, wsHeader, wsBlock, wsTotal]

theorem wsFold (pairs : List (String × MEntry)) (d : Dict UserData) :
    ∀ (ws : List String) (sd : List Row) (a : ℚ),
    ws.foldl (wsStep pairs d) (sd, a) =
      (sd ++ ws.flatMap (wsBlock pairs d),
       a + (ws.map (wsTotal pairs)).sum) := by
  intro ws
  induction ws with
  | nil => intro sd a; simp
  | cons w ws ih =>
      intro sd a
      simp only [List.foldl_cons, wsStepEq, ih, List.flatMap_cons, List.map_cons,
        List.sum_cons, List.append_assoc, add_assoc]

/-- The imperative build with back-filling equals the closed form. -/
theorem create_hierarchical_summary_eq (d : Dict UserData) :
    create_hierarchical_summary d = summaryClosedForm d := by
  simp [create_hierarchical_summary, summaryClosedForm, wsFold, grandTotal]

/-! ### Summing a list fiberwise over its distinct keys -/

theorem sum_if_single {κ M : Type} [DecidableEq κ] [AddCommMonoid M]
    (vs : List κ) (x : κ) (c : M) (hnd : vs.Nodup) (hx : x ∈ vs) :
    (vs.map fun v => if x = v then c else 0).sum = c := by
  induction vs with
  | nil => cases hx
  | cons v vs ih =>
      rcases List.mem_cons.mp hx with rfl | hx
      · have hnot : x ∉ vs := (List.nodup_cons.mp hnd).1
        have hz : (vs.map fun v => if x = v then c else 0).sum = 0 := by
          apply List.sum_eq_zero
          intro y hy
          rcases List.mem_map.mp hy with ⟨u, hu, rfl⟩
          have hne : ¬ x = u := fun he => hnot (he ▸ hu)
          simp [hne]
        simp [hz]
      · have hne : ¬ x = v := fun he => (List.nodup_cons.mp hnd).1 (he ▸ hx)
        simp [hne, ih (List.nodup_cons.mp hnd).2 hx]

theorem sum_partition {α κ M : Type} [DecidableEq κ] [AddCommMonoid M]
    (key : α → κ) (f : α → M) (vs : List κ) (hnd : vs.Nodup) :
    ∀ (ps : List α), (∀ p ∈ ps, key p ∈ vs) →
    (vs.map fun v => ((ps.filter fun p => key p = v).map f).sum).sum = (ps.map f).sum := by
  intro ps
  induction ps with
  | nil => intro _; simp
  | cons p rest ih =>
      intro hcov
      have hrest := ih fun q hq => hcov q (List.mem_cons_of_mem p hq)
      have hstep : ∀ v : κ, (((p :: rest).filter fun q => key q = v).map f).sum =
          (if key p = v then f p else 0) + ((rest.filter fun q => key q = v).map f).sum := by
        intro v
        by_cases hv : key p = v <;> simp [List.filter_cons, hv]
      calc (vs.map fun v => (((p :: rest).filter fun q => key q = v).map f).sum).sum
          = (vs.map fun v => (if key p = v then f p else 0) +
              ((rest.filter fun q => key q = v).map f).sum).sum := by
            simp only [hstep]
        _ = (vs.map fun v => if key p = v then f p else 0).sum +
              (vs.map fun v => ((rest.filter fun q => key q = v).map f).sum).sum :=
            List.sum_map_add
        _ = f p + (rest.map f).sum := by
            rw [sum_if_single vs (key p) (f p) hnd (hcov p (List.mem_cons_self p rest)), hrest]
        _ = ((p :: rest).map f).sum := by simp

/-! ### The group totals as sums over the filtered entry pairs -/

theorem mem_insertName (x y : String) :
    ∀ (l : List String), (y ∈ insertName x l ↔ y = x ∨ y ∈ l) := by
  intro l
  induction l with
  | nil => simp [insertName]
  | cons z l ih =>
      by_cases hxz : x = z
      · subst hxz
        simp only [insertName, if_pos]
        simp only [List.mem_cons]
        tauto
      · by_cases hlt : x.data < z.data <;> simp [insertName, hxz, hlt, ih] <;> tauto

theorem sorted_insertName (x : String) :
    ∀ (l : List String), List.Sorted (· < ·) l → List.Sorted (· < ·) (insertName x l) := by
  intro l
  induction l with
  | nil => intro _; simp [insertName]
  | cons z l ih =>
      intro h
      have hz : ∀ b ∈ l, z < b := (List.sorted_cons.mp h).1
      have hl : List.Sorted (· < ·) l := (List.sorted_cons.mp h).2
      by_cases hxz : x = z
      · simpa [insertName, hxz] using h
      · by_cases hlt : x.data < z.data
        · have hxzlt : x < z := String.lt_iff_toList_lt.mpr hlt
          simp only [insertName, hxz, if_false, if_pos hlt]
          refine List.sorted_cons.mpr ⟨?_, h⟩
          intro b hb
          rcases List.mem_cons.mp hb with rfl | hb
          · exact hxzlt
          · exact lt_trans hxzlt (hz b hb)
        · have hnlt : ¬ x < z := fun hcon => hlt (String.lt_iff_toList_lt.mp hcon)
          have hzx : z < x := lt_of_le_of_ne (not_lt.mp hnlt) fun he => hxz he.symm
          simp only [insertName, hxz, hlt, if_false]
          refine List.sorted_cons.mpr ⟨?_, ih hl⟩
          intro b hb
          rcases (mem_insertName x b l).mp hb with rfl | hb
          · exact hzx
          · exact hz b hb

theorem sortedNames_sorted (l : List String) : List.Sorted (· < ·) (sortedNames l) := by
  induction l with
  | nil => simp [sortedNames]
  | cons x l ih => exact sorted_insertName x (sortedNames l) ih

theorem mem_sortedNames {l : List String} {x : String} : x ∈ sortedNames l ↔ x ∈ l := by
  induction l with
  | nil => simp [sortedNames]
  | cons y l ih =>
      have hstep : sortedNames (y :: l) = insertName y (sortedNames l) := rfl
      rw [hstep, mem_insertName, ih, List.mem_cons]

theorem sortedNames_nodup (l : List String) : (sortedNames l).Nodup :=
  List.Pairwise.imp ne_of_lt (sortedNames_sorted l)

theorem memberHours_as_filter (pairs : List (String × MEntry)) (w l t m : String) :
    memberHours pairs w l t m =
      (((pairs.filter fun p =>
          p.2.workspace_name = w ∧ p.2.list_name = l ∧ p.2.task_name = t).filter
            fun p => p.1 = m).map fun p => p.2.duration_hours).sum := by
  rw [List.filter_filter]
  have : (pairs.filter fun p =>
      decide (p.1 = m) && decide (p.2.workspace_name = w ∧ p.2.list_name = l ∧ p.2.task_name = t)) =
      pairs.filter fun p =>
        p.2.workspace_name = w ∧ p.2.list_name = l ∧ p.2.task_name = t ∧ p.1 = m := by
    apply List.filter_congr
    intro p _
    by_cases h1 : p.2.workspace_name = w <;>
      by_cases h2 : p.2.list_name = l <;>
        by_cases h3 : p.2.task_name = t <;>
          by_cases h4 : p.1 = m <;> simp [h1, h2, h3, h4]
  rw [this, memberHours]

theorem taskTotal_as_filter (pairs : List (String × MEntry)) (w l t : String) :
    taskTotal pairs w l t =
      ((pairs.filter fun p =>
          p.2.workspace_name = w ∧ p.2.list_name = l ∧ p.2.task_name = t).map
        fun p => p.2.duration_hours).sum := by
  rw [taskTotal]
  have hrw : (memberNames pairs w l t).map (memberHours pairs w l t) =
      (memberNames pairs w l t).map fun m =>
        (((pairs.filter fun p =>
            p.2.workspace_name = w ∧ p.2.list_name = l ∧ p.2.task_name = t).filter
              fun p => p.1 = m).map fun p => p.2.duration_hours).sum := by
    apply List.map_congr_left
    intro m _
    exact memberHours_as_filter pairs w l t m
  rw [hrw]
  exact sum_partition (fun p => p.1) (fun p => p.2.duration_hours) (memberNames pairs w l t)
    (sortedNames_nodup _)
    (pairs.filter fun p => p.2.workspace_name = w ∧ p.2.list_name = l ∧ p.2.task_name = t)
    (fun p hp => mem_sortedNames.mpr (List.mem_map.mpr ⟨p, hp, rfl⟩))

theorem listTotal_as_filter (pairs : List (String × MEntry)) (w l : String) :
    listTotal pairs w l =
      ((pairs.filter fun p => p.2.workspace_name = w ∧ p.2.list_name = l).map
        fun p => p.2.duration_hours).sum := by
  rw [listTotal]
  have hrw : (taskNames pairs w l).map (taskTotal pairs w l) =
      (taskNames pairs w l).map fun t =>
        (((pairs.filter fun p => p.2.workspace_name = w ∧ p.2.list_name = l).filter
            fun p => p.2.task_name = t).map fun p => p.2.duration_hours).sum := by
    apply List.map_congr_left
    intro t _
    have hfil : pairs.filter (fun a =>
        decide (a.2.task_name = t) && decide (a.2.workspace_name = w ∧ a.2.list_name = l)) =
        pairs.filter fun p =>
          p.2.workspace_name = w ∧ p.2.list_name = l ∧ p.2.task_name = t := by
      apply List.filter_congr
      intro p _
      by_cases h1 : p.2.workspace_name = w <;>
        by_cases h2 : p.2.list_name = l <;>
          by_cases h3 : p.2.task_name = t <;> simp [h1, h2, h3]
    rw [taskTotal_as_filter, List.filter_filter, hfil]
  rw [hrw]
  exact sum_partition (fun p => p.2.task_name) (fun p => p.2.duration_hours) (taskNames pairs w l)
    (sortedNames_nodup _)
    (pairs.filter fun p => p.2.workspace_name = w ∧ p.2.list_name = l)
    (fun p hp => mem_sortedNames.mpr (List.mem_map.mpr ⟨p, hp, rfl⟩))

theorem wsTotal_as_filter (pairs : List (String × MEntry)) (w : String) :
    wsTotal pairs w =
      ((pairs.filter fun p => p.2.workspace_name = w).map fun p => p.2.duration_hours).sum := by
  rw [wsTotal]
  have hrw : (listNames pairs w).map (listTotal pairs w) =
      (listNames pairs w).map fun l =>
        (((pairs.filter fun p => p.2.workspace_name = w).filter
            fun p => p.2.list_name = l).map fun p => p.2.duration_hours).sum := by
    apply List.map_congr_left
    intro l _
    have hfil : pairs.filter (fun a =>
        decide (a.2.list_name = l) && decide (a.2.workspace_name = w)) =
        pairs.filter fun p => p.2.workspace_name = w ∧ p.2.list_name = l := by
      apply List.filter_congr
      intro p _
      by_cases h1 : p.2.workspace_name = w <;>
        by_cases h2 : p.2.list_name = l <;> simp [h1, h2]
    rw [listTotal_as_filter, List.filter_filter, hfil]
  rw [hrw]
  exact sum_partition (fun p => p.2.list_name) (fun p => p.2.duration_hours) (listNames pairs w)
    (sortedNames_nodup _)
    (pairs.filter fun p => p.2.workspace_name = w)
    (fun p hp => mem_sortedNames.mpr (List.mem_map.mpr ⟨p, hp, rfl⟩))

theorem grandTotal_as_sum (pairs : List (String × MEntry)) :
    grandTotal pairs = (pairs.map fun p => p.2.duration_hours).sum := by
  rw [grandTotal]
  have hrw : (wsNames pairs).map (wsTotal pairs) =
      (wsNames pairs).map fun w =>
        ((pairs.filter fun p => p.2.workspace_name = w).map fun p => p.2.duration_hours).sum := by
    apply List.map_congr_left
    intro w _
    exact wsTotal_as_filter pairs w
  rw [hrw]
  exact sum_partition (fun p => p.2.workspace_name) (fun p => p.2.duration_hours)
    (wsNames pairs) (sortedNames_nodup _) pairs
    (fun p hp => mem_sortedNames.mpr (List.mem_map.mpr ⟨p, hp, rfl⟩))

/-- The durations of all pairs sum to the per-user hour totals. -/
theorem allPairs_duration_sum (d : Dict UserData) :
    ((allPairs d).map fun p => p.2.duration_hours).sum =
      (d.map fun p => userHours p.2.entries).sum := by
  induction d with
  | nil => rfl
  | cons q d ih =>
      have h1 : allPairs (q :: d) = (q.2.entries.map fun e => (q.1, e)) ++ allPairs d := by
        simp [allPairs]
      rw [h1, List.map_append, List.sum_append, ih, List.map_cons, List.sum_cons]
      congr 1
      rw [List.map_map]
      rfl

/-! ### Dict lemmas and the fetch loop in closed form -/

theorem dictLookup_insert_self {α : Type} (d : Dict α) (k : String) (v : α) :
    dictLookup (dictInsert d k v) k = some v := by
  induction d with
  | nil => simp [dictInsert, dictLookup]
  | cons p d ih =>
      by_cases h : p.1 = k <;> simp [dictInsert, dictLookup, h, ih]

theorem dictLookup_insert_ne {α : Type} (d : Dict α) (k k₀ : String) (v : α)
    (h : k ≠ k₀) : dictLookup (dictInsert d k v) k₀ = dictLookup d k₀ := by
  induction d with
  | nil => simp [dictInsert, dictLookup, h]
  | cons p d ih =>
      by_cases hp : p.1 = k
      · subst hp
        simp [dictInsert, dictLookup, h]
      · simp [dictInsert, dictLookup, hp, ih]

theorem dictLookup_eq_none_iff {α : Type} (d : Dict α) (k : String) :
    dictLookup d k = none ↔ k ∉ d.map Prod.fst := by
  induction d with
  | nil => simp [dictLookup]
  | cons p d ih =>
      by_cases h : p.1 = k
      · simp [dictLookup, h]
      · have hd : dictLookup (p :: d) k = dictLookup d k := by simp [dictLookup, h]
        rw [hd, ih, List.map_cons, List.mem_cons]
        constructor
        · intro hk hor
          rcases hor with he | hm
          · exact h he.symm
          · exact hk hm
        · intro hk hm
          exact hk (Or.inr hm)

theorem fetch_foldl_lookup (fetch : UserRec → Except String (List MEntry)) :
    ∀ (users : List UserRec) (d₀ : Dict UserData) (name : String),
    dictLookup (users.foldl
      (fun d u =>
        match fetch u with
        | .ok es => dictInsert d u.username { user_info := u, entries := es, error := none }
        | .error e => dictInsert d u.username { user_info := u, entries := [], error := some e })
      d₀) name =
      match users.reverse.find? (fun u => u.username = name) with
      | some u => some (fetchRecord fetch u)
      | none => dictLookup d₀ name := by
  intro users
  induction users with
  | nil => intro d₀ name; rfl
  | cons u us ih =>
      intro d₀ name
      have hstep : (match fetch u with
          | Except.ok es => dictInsert d₀ u.username
              { user_info := u, entries := es, error := none }
          | Except.error e => dictInsert d₀ u.username
              { user_info := u, entries := [], error := some e }) =
          dictInsert d₀ u.username (fetchRecord fetch u) := by
        unfold fetchRecord
        cases fetch u <;> rfl
      rw [List.foldl_cons, hstep, ih]
      rw [List.reverse_cons, List.find?_append]
      cases hfind : us.reverse.find? (fun v => v.username = name) with
      | some v => simp [hfind]
      | none =>
          by_cases hu : u.username = name
          · simp [hfind, hu, dictLookup_insert_self]
          · simp [hfind, hu, dictLookup_insert_ne d₀ u.username name _ hu]

theorem fetch_lookup (fetch : UserRec → Except String (List MEntry))
    (users : List UserRec) (name : String) :
    dictLookup (fetch_entries_for_users fetch users) name =
      (users.reverse.find? (fun u => u.username = name)).map (fetchRecord fetch) := by
  rw [fetch_entries_for_users, fetch_foldl_lookup]
  cases hfind : users.reverse.find? (fun u => u.username = name) <;> simp [dictLookup]

/-- In a list of users with pairwise distinct usernames, searching for the
username of a member finds exactly that member. -/
theorem find?_username_unique :
    ∀ (l : List UserRec) (u : UserRec),
    (l.map (fun v => v.username)).Nodup → u ∈ l →
    l.find? (fun v => v.username = u.username) = some u := by
  intro l
  induction l with
  | nil => intro u _ hu; cases hu
  | cons v l ih =>
      intro u hnd hu
      rcases List.mem_cons.mp hu with rfl | hu
      · simp [List.find?_cons]
      · rw [List.map_cons] at hnd
        have hne : ¬ v.username = u.username := fun he =>
          (List.nodup_cons.mp hnd).1 (List.mem_map.mpr ⟨u, hu, he.symm⟩)
        simp only [List.find?_cons, hne, decide_eq_false hne, Bool.false_eq_true]
        exact ih u (List.nodup_cons.mp hnd).2 hu

/-- Folding single-character replacements over a list of banned characters is
the pointwise substitution. -/
theorem foldl_replaceAllChar (b : Char) :
    ∀ (l : List Char) (s : List Char),
    l.foldl (fun s c => replaceAllChar s c b) s =
      s.map fun c => if c ∈ l then b else c := by
  intro l
  induction l with
  | nil =>
      intro s
      simp [List.map_id]
  | cons a l ih =>
      intro s
      rw [List.foldl_cons, ih, replaceAllChar, List.map_map]
      apply List.map_congr_left
      intro c _
      by_cases hca : c = a
      · by_cases hbl : b ∈ l <;> simp [Function.comp, hca, hbl]
      · simp [Function.comp, hca]

/-! ### Back-filling: inverse characterisation of `update_summary_totals` -/

theorem ust_false_inv (lv w l t : String) (h : ℚ) (e : Option ℕ) :
    ∀ rows : List Row, (update_summary_totals rows lv w l t h e).2 = false →
    (update_summary_totals rows lv w l t h e).1 = rows ∧
      ∀ r ∈ rows, rowMatches lv w l t r = false := by
  intro rows
  induction rows with
  | nil => intro _; exact ⟨rfl, by intro r hr; cases hr⟩
  | cons r rest ih =>
      intro hf
      unfold update_summary_totals at hf ⊢
      by_cases hrec : (update_summary_totals rest lv w l t h e).2
      · simp [hrec] at hf
      · by_cases hm : rowMatches lv w l t r
        · simp [hrec, hm] at hf
        · simp only [Bool.not_eq_true] at hrec
          rcases ih hrec with ⟨_, hall⟩
          refine ⟨by simp [hrec, hm], ?_⟩
          intro x hx
          rcases List.mem_cons.mp hx with rfl | hx
          · simpa using hm
          · exact hall x hx

theorem ust_true_inv (lv w l t : String) (h : ℚ) (e : Option ℕ) :
    ∀ rows : List Row, (update_summary_totals rows lv w l t h e).2 = true →
    ∃ (l₁ l₂ : List Row) (r : Row), rows = l₁ ++ r :: l₂ ∧
      (update_summary_totals rows lv w l t h e).1 = l₁ ++ updRow r h e :: l₂ ∧
      rowMatches lv w l t r = true ∧
      ∀ x ∈ l₂, rowMatches lv w l t x = false := by
  intro rows
  induction rows with
  | nil => intro hf; simp [update_summary_totals] at hf
  | cons r rest ih =>
      intro htop
      by_cases hrec : (update_summary_totals rest lv w l t h e).2
      · rcases ih hrec with ⟨l₁, l₂, x, hsplit, hupd, hmatch, hnm⟩
        refine ⟨r :: l₁, l₂, x, by rw [hsplit]; simp, ?_, hmatch, hnm⟩
        unfold update_summary_totals
        simp [hrec, hupd]
      · by_cases hm : rowMatches lv w l t r
        · rcases ust_false_inv lv w l t h e rest (by simpa using hrec) with ⟨_, hall⟩
          refine ⟨[], rest, r, rfl, ?_, hm, hall⟩
          unfold update_summary_totals
          simp [hrec, hm]
        · exfalso
          unfold update_summary_totals at htop
          simp [hrec, hm] at htop

/-! ### Non-negativity of `round2` on non-negative input -/

theorem rne_nonneg (x : ℚ) (hx : 0 ≤ x) : 0 ≤ rne x := by
  have hf : (0 : ℤ) ≤ ⌊x⌋ := Int.floor_nonneg.mpr hx
  unfold rne
  split_ifs <;> omega

theorem round2_nonneg (q : ℚ) (hq : 0 ≤ q) : 0 ≤ round2 q := by
  unfold round2
  apply div_nonneg _ (by norm_num : (0:ℚ) ≤ 100)
  exact_mod_cast rne_nonneg (q * 100) (by positivity)

theorem taskBlock_map_rowKey (pairs : List (String × MEntry)) (d : Dict UserData)
    (w l t : String) :
    (taskBlock pairs d w l t).map rowKey =
      ("TASK", w, l, t, "") ::
        ((memberNames pairs w l t).map fun m => ("MEMBER", w, l, t, m)) := by
  simp [taskBlock, rowKey, memberRow, taskHeader, List.map_map, Function.comp]

theorem listBlock_map_rowKey (pairs : List (String × MEntry)) (d : Dict UserData)
    (w l : String) :
    (listBlock pairs d w l).map rowKey =
      ("LIST", w, l, "", "") ::
        ((taskNames pairs w l).flatMap fun t =>
          ("TASK", w, l, t, "") ::
            ((memberNames pairs w l t).map fun m => ("MEMBER", w, l, t, m))) := by
  simp only [listBlock, List.map_cons, List.map_flatMap, taskBlock_map_rowKey]
  rfl

theorem wsBlock_map_rowKey (pairs : List (String × MEntry)) (d : Dict UserData)
    (w : String) :
    (wsBlock pairs d w).map rowKey =
      ("WORKSPACE", w, "", "", "") ::
        ((listNames pairs w).flatMap fun l =>
          ("LIST", w, l, "", "") ::
            ((taskNames pairs w l).flatMap fun t =>
              ("TASK", w, l, t, "") ::
                ((memberNames pairs w l t).map fun m => ("MEMBER", w, l, t, m)))) := by
  simp only [wsBlock, List.map_cons, List.map_flatMap, listBlock_map_rowKey]
  rfl

/-! ### The claims -/

/-- C2: for every mapping of users to time-entry lists, the Hours value of
the trailing GRAND TOTAL row of `create_hierarchical_summary` equals
`round(sum of duration_hours over all entries of all users, 2)`, and its
Entries value is the total entry count across all users. -/
theorem c2_grand_total (d : Dict UserData) :
    (create_hierarchical_summary d).getLast? =
      some { level := "GRAND TOTAL", workspace := "", list_name := "", task := ""
             member := ""
             hours := some (round2
               ((d.map fun p => (p.2.entries.map fun e => e.duration_hours).sum).sum))
             entries := some ((d.map fun p => p.2.entries.length).sum) } := by
  rw [create_hierarchical_summary_eq]
  simp only [summaryClosedForm, List.getLast?_concat, grandRow]
  rw [grandTotal_as_sum, allPairs_duration_sum]
  simp [userHours]

/-- C3: the row sequence of `create_hierarchical_summary` is the depth-first
walk of the four-level grouping workspace → list → task → member with
lexicographically sorted siblings at every level, each group header before
its children, and the single GRAND TOTAL row last. -/
theorem c3_sorted_dfs_walk (d : Dict UserData) :
    (create_hierarchical_summary d).map rowKey = dfsWalk d ∧
    List.Sorted (· < ·) (wsNames (allPairs d)) ∧
    (∀ w, List.Sorted (· < ·) (listNames (allPairs d) w)) ∧
    (∀ w l, List.Sorted (· < ·) (taskNames (allPairs d) w l)) ∧
    (∀ w l t, List.Sorted (· < ·) (memberNames (allPairs d) w l t)) ∧
    ((create_hierarchical_summary d).map rowKey).getLast? =
      some ("GRAND TOTAL", "", "", "", "") := by
  have hmain : (create_hierarchical_summary d).map rowKey = dfsWalk d := by
    rw [create_hierarchical_summary_eq]
    simp only [summaryClosedForm, dfsWalk, List.map_append, List.map_flatMap,
      wsBlock_map_rowKey]
    rfl
  refine ⟨hmain, sortedNames_sorted _, fun w => sortedNames_sorted _,
    fun w l => sortedNames_sorted _, fun w l t => sortedNames_sorted _, ?_⟩
  rw [hmain]
  simp only [dfsWalk, List.getLast?_concat]

/-- C9: one call to `update_summary_totals` keeps the number of rows, changes
nothing when no row matches, and otherwise rewrites exactly the last matching
row, touching only its Hours field (and its Entries field when an entries
count was supplied). -/
theorem c9_update_totals_frame (rows : List Row) (lv w l t : String) (h : ℚ)
    (e : Option ℕ) :
    (update_summary_totals rows lv w l t h e).1.length = rows.length ∧
    ((update_summary_totals rows lv w l t h e).2 = false →
      (update_summary_totals rows lv w l t h e).1 = rows ∧
      ∀ r ∈ rows, rowMatches lv w l t r = false) ∧
    ((update_summary_totals rows lv w l t h e).2 = true →
      ∃ (l₁ l₂ : List Row) (r : Row), rows = l₁ ++ r :: l₂ ∧
        (update_summary_totals rows lv w l t h e).1 = l₁ ++ updRow r h e :: l₂ ∧
        rowMatches lv w l t r = true ∧
        (∀ x ∈ l₂, rowMatches lv w l t x = false) ∧
        (updRow r h e).level = r.level ∧
        (updRow r h e).workspace = r.workspace ∧
        (updRow r h e).list_name = r.list_name ∧
        (updRow r h e).task = r.task ∧
        (updRow r h e).member = r.member ∧
        (updRow r h e).hours = some (round2 h) ∧
        (updRow r h e).entries = (match e with | some n => some n | none => r.entries)) := by
  refine ⟨?_, fun hf => ust_false_inv lv w l t h e rows hf, fun ht => ?_⟩
  · cases hfound : (update_summary_totals rows lv w l t h e).2 with
    | false => rw [(ust_false_inv lv w l t h e rows hfound).1]
    | true =>
        rcases ust_true_inv lv w l t h e rows hfound with ⟨l₁, l₂, r, hsplit, hupd, _, _⟩
        rw [hupd, hsplit]
        simp
  · rcases ust_true_inv lv w l t h e rows ht with ⟨l₁, l₂, r, hsplit, hupd, hmatch, hnm⟩
    exact ⟨l₁, l₂, r, hsplit, hupd, hmatch, hnm, rfl, rfl, rfl, rfl, rfl, rfl, rfl⟩

/-- C10: `fetch_entries_for_users` keys its result by username: looking a
name up yields the record of the most recently processed user bearing that
username (so of duplicates only the later one survives), and the key set is
exactly the set of usernames. -/
theorem c10_keyed_by_username (fetch : UserRec → Except String (List MEntry))
    (users : List UserRec) :
    (∀ name, dictLookup (fetch_entries_for_users fetch users) name =
      (users.reverse.find? fun u => u.username = name).map (fetchRecord fetch)) ∧
    (∀ name, name ∈ (fetch_entries_for_users fetch users).map Prod.fst ↔
      name ∈ users.map fun u => u.username) := by
  refine ⟨fun name => fetch_lookup fetch users name, fun name => ?_⟩
  have h1 := dictLookup_eq_none_iff (fetch_entries_for_users fetch users) name
  rw [fetch_lookup fetch users name] at h1
  constructor
  · intro hmem
    by_contra habs
    have hnone : (users.reverse.find? fun u => u.username = name) = none := by
      rw [List.find?_eq_none]
      intro x hx
      simp only [decide_eq_true_eq]
      intro he
      exact habs (List.mem_map.mpr ⟨x, List.mem_reverse.mp hx, he⟩)
    rw [hnone] at h1
    exact (h1.mp rfl) hmem
  · intro hmem
    rcases List.mem_map.mp hmem with ⟨u, hu, he⟩
    have hsome : (users.reverse.find? fun v => v.username = name).isSome := by
      rw [List.find?_isSome]
      exact ⟨u, List.mem_reverse.mpr hu, by simpa using he⟩
    by_contra habs
    have hnone := h1.mpr habs
    rcases Option.isSome_iff_exists.mp hsome with ⟨v, hv⟩
    rw [hv] at hnone
    simp at hnone

/-- C4: when the fetch raises for some user, `fetch_entries_for_users` still
records that user with an empty entry list and the error string and goes on:
with pairwise-distinct usernames, every user of the list is present in the
result, a failed user maps to `([], error)`, and a successful user maps to
exactly the entries their fetch returned. -/
theorem c4_fetch_error_isolated (fetch : UserRec → Except String (List MEntry))
    (users : List UserRec) (hnd : (users.map fun u => u.username).Nodup) :
    ∀ u ∈ users,
      dictLookup (fetch_entries_for_users fetch users) u.username =
        some (fetchRecord fetch u) ∧
      (∀ e, fetch u = .error e →
        dictLookup (fetch_entries_for_users fetch users) u.username =
          some { user_info := u, entries := [], error := some e }) ∧
      (∀ es, fetch u = .ok es →
        dictLookup (fetch_entries_for_users fetch users) u.username =
          some { user_info := u, entries := es, error := none }) := by
  intro u hu
  have hrevnd : (users.reverse.map fun v => v.username).Nodup := by
    rw [List.map_reverse, List.nodup_reverse]
    exact hnd
  have hfind : users.reverse.find? (fun v => v.username = u.username) = some u :=
    find?_username_unique users.reverse u hrevnd (List.mem_reverse.mpr hu)
  have hmain : dictLookup (fetch_entries_for_users fetch users) u.username =
      some (fetchRecord fetch u) := by
    rw [fetch_lookup, hfind]
    rfl
  refine ⟨hmain, fun e he => ?_, fun es hes => ?_⟩
  · rw [hmain, fetchRecord, he]
  · rw [hmain, fetchRecord, hes]

/-- C5: every user of the fetched mapping whose entry list is empty still
gets exactly one row of `get_user_summary`, with Total Hours 0 and Total
Entries 0; the user rows are the first `d.length` rows, so no user is
omitted and no other user row carries that username. -/
theorem c5_empty_user_row (d : Dict UserData) (hnd : (d.map Prod.fst).Nodup)
    (name : String) (data : UserData) (hmem : (name, data) ∈ d)
    (hempty : data.entries = []) :
    (get_user_summary d).length = d.length + 1 ∧
    ∃ i : ℕ, i < d.length ∧
      (get_user_summary d).get? i =
        some { person_name := name, total_entries := 0, total_hours := 0
               email := data.user_info.email } ∧
      ∀ j : ℕ, j < d.length → j ≠ i →
        ∀ r : UserSummaryRow, (get_user_summary d).get? j = some r →
          r.person_name ≠ name := by
  have hlen : (get_user_summary d).length = d.length + 1 := by
    simp [get_user_summary]
  refine ⟨hlen, ?_⟩
  rcases List.mem_iff_get?.mp hmem with ⟨i, hi⟩
  have hilt : i < d.length := by
    rcases List.get?_eq_some.mp hi with ⟨hl, _⟩
    exact hl
  have hrow : ∀ j : ℕ, j < d.length →
      (get_user_summary d).get? j = (d.get? j).map fun p =>
        { person_name := p.1, total_entries := p.2.entries.length
          total_hours := userHours p.2.entries
          email := p.2.user_info.email } := by
    intro j hj
    rw [get_user_summary, List.get?_append (by simpa using hj), List.get?_map]
  refine ⟨i, hilt, ?_, ?_⟩
  · rw [hrow i hilt, hi]
    simp [userHours, hempty]
  · intro j hj hne r hr
    rw [hrow j hj] at hr
    rcases Option.map_eq_some'.mp hr with ⟨p, hp, hpr⟩
    intro hcontra
    apply hne
    have hji : (d.map Prod.fst).get? j = (d.map Prod.fst).get? i := by
      rw [List.get?_map, List.get?_map, hp, hi]
      have hp1 : p.1 = name := by rw [← hcontra, ← hpr]
      simp [hp1]
    exact List.get?_inj (by simpa using hj) hnd hji

/-- C6: `_make_safe_sheet_name` substitutes an underscore for every invalid
character, then truncates: the result is the substituted name when it fits in
31 characters, and its first 28 characters followed by "..." (31 characters
exactly) when it does not; the result never exceeds 31 characters. -/
theorem c6_make_safe_sheet_name (name : List Char) :
    (make_safe_sheet_name name).length ≤ 31 ∧
    make_safe_sheet_name name =
      (if (name.map fun c => if c ∈ invalid_chars then '_' else c).length > 31 then
        (name.map fun c => if c ∈ invalid_chars then '_' else c).take 28 ++ ['.', '.', '.']
      else name.map fun c => if c ∈ invalid_chars then '_' else c) ∧
    (name.length > 31 → (make_safe_sheet_name name).length = 31) := by
  have hsubst : make_safe_sheet_name name =
      (if (name.map fun c => if c ∈ invalid_chars then '_' else c).length > 31 then
        (name.map fun c => if c ∈ invalid_chars then '_' else c).take 28 ++ ['.', '.', '.']
      else name.map fun c => if c ∈ invalid_chars then '_' else c) := by
    rw [make_safe_sheet_name, foldl_replaceAllChar]
    rfl
  have hmaplen : (name.map fun c => if c ∈ invalid_chars then '_' else c).length =
      name.length := List.length_map _ _
  refine ⟨?_, hsubst, ?_⟩
  · rw [hsubst]
    by_cases hgt : (name.map fun c => if c ∈ invalid_chars then '_' else c).length > 31
    · rw [if_pos hgt]
      simp only [List.length_append, List.length_take, List.length_cons,
        List.length_nil]
      omega
    · rw [if_neg hgt]
      omega
  · intro hlong
    rw [hsubst, if_pos (by omega)]
    simp only [List.length_append, List.length_take, List.length_cons,
      List.length_nil]
    omega

/-- C7 amended: `Task.hours_spent` and `Task.hours_estimated` are always
non-negative (the conversion is guarded by `if > 0 else 0`), and
`TimeEntry.duration_hours` is non-negative whenever `duration_ms` is
non-negative — but not for negative `duration_ms`, which the data model and
`from_api_response` both admit. -/
theorem c7_durations_nonneg_amended :
    (∀ t : Task, 0 ≤ t.hours_spent ∧ 0 ≤ t.hours_estimated) ∧
    (∀ e : TimeEntryRec, 0 ≤ e.duration_ms → 0 ≤ e.duration_hours) := by
  constructor
  · intro t
    constructor
    · rw [Task.hours_spent]
      split_ifs with hpos
      · exact round2_nonneg _
          (div_nonneg (by exact_mod_cast hpos.le) (by norm_num))
      · exact le_refl 0
    · rw [Task.hours_estimated]
      split_ifs with hpos
      · exact round2_nonneg _
          (div_nonneg (by exact_mod_cast hpos.le) (by norm_num))
      · exact le_refl 0
  · intro e he
    rw [TimeEntryRec.duration_hours]
    exact round2_nonneg _ (div_nonneg (by exact_mod_cast he) (by norm_num))

/-- C8: with no auth token (or an empty one) `get_workspaces` and
`get_time_entries` fail immediately and issue no HTTP request; with a token
set each issues exactly its one request and fails precisely when the response
status is not 200, otherwise returning the parsed records. -/
theorem c8_client_auth_and_status (token : Option String)
    (http : HttpRequest → HttpResponse) (workspace_id user_id : String)
    (start_timestamp end_timestamp : ℤ) :
    (tokenUnset token = true →
      get_workspaces token http = (.error "Authentication token not set", []) ∧
      get_time_entries token http workspace_id user_id start_timestamp end_timestamp =
        (.error "Authentication token not set", [])) ∧
    (tokenUnset token = false →
      (get_workspaces token http).2 = [teamRequest] ∧
      ((http teamRequest).status = 200 →
        (get_workspaces token http).1 =
          .ok ((http teamRequest).teams.map WorkspaceRec.from_api_response)) ∧
      ((http teamRequest).status ≠ 200 →
        (get_workspaces token http).1 =
          .error ("Failed to fetch workspaces: " ++ toString (http teamRequest).status
            ++ " - " ++ (http teamRequest).text)) ∧
      (get_time_entries token http workspace_id user_id start_timestamp end_timestamp).2 =
        [timeEntriesRequest workspace_id user_id start_timestamp end_timestamp] ∧
      ((http (timeEntriesRequest workspace_id user_id start_timestamp
          end_timestamp)).status = 200 →
        (get_time_entries token http workspace_id user_id start_timestamp
          end_timestamp).1 =
          .ok ((http (timeEntriesRequest workspace_id user_id start_timestamp
            end_timestamp)).entries.map TimeEntryRec.from_api_response)) ∧
      ((http (timeEntriesRequest workspace_id user_id start_timestamp
          end_timestamp)).status ≠ 200 →
        (get_time_entries token http workspace_id user_id start_timestamp
          end_timestamp).1 =
          .error ("Failed to fetch time entries: "
            ++ toString (http (timeEntriesRequest workspace_id user_id start_timestamp
              end_timestamp)).status
            ++ " - " ++ (http (timeEntriesRequest workspace_id user_id start_timestamp
              end_timestamp)).text))) := by
  constructor
  · intro hunset
    constructor <;> simp [get_workspaces, get_time_entries, hunset]
  · intro hset
    refine ⟨?_, ?_, ?_, ?_, ?_, ?_⟩ <;>
      simp only [get_workspaces, get_time_entries, hset, Bool.false_eq_true,
        if_false, ne_eq]
    · by_cases hst : (http teamRequest).status = 200 <;> simp [hst]
    · intro hst
      simp [hst]
    · intro hst
      simp [hst]
    · by_cases hst : (http (timeEntriesRequest workspace_id user_id start_timestamp
        end_timestamp)).status = 200 <;> simp [hst]
    · intro hst
      simp [hst]
    · intro hst
      simp [hst]

/-- C1 amended: every back-filled header row of the hierarchical summary
(TASK, LIST, WORKSPACE, and the GRAND TOTAL row) carries `round(·, 2)` of the
*unrounded* sum of its subtree's duration hours — totals are accumulated
before rounding, so a parent is not in general the round-sum of its
children's already-rounded values. -/
theorem c1_header_hours_amended (d : Dict UserData) :
    ∀ r ∈ create_hierarchical_summary d,
      (r.level = "TASK" →
        r.hours = some (round2 (taskTotal (allPairs d) r.workspace r.list_name r.task))) ∧
      (r.level = "LIST" →
        r.hours = some (round2 (listTotal (allPairs d) r.workspace r.list_name))) ∧
      (r.level = "WORKSPACE" →
        r.hours = some (round2 (wsTotal (allPairs d) r.workspace))) ∧
      (r.level = "GRAND TOTAL" →
        r.hours = some (round2 (grandTotal (allPairs d)))) := by
  intro r hr
  rw [create_hierarchical_summary_eq] at hr
  simp only [summaryClosedForm, List.mem_append, List.mem_flatMap] at hr
  rcases hr with ⟨w, _, hw⟩ | hgrand
  · rcases List.mem_cons.mp hw with rfl | hw
    · exact ⟨fun h => absurd h (by simp [wsHeader, listHeader, taskHeader, memberRow, grandRow]), fun h => absurd h (by simp [wsHeader, listHeader, taskHeader, memberRow, grandRow]),
        fun _ => rfl, fun h => absurd h (by simp [wsHeader, listHeader, taskHeader, memberRow, grandRow])⟩
    · rcases List.mem_flatMap.mp hw with ⟨l, _, hl⟩
      rcases List.mem_cons.mp hl with rfl | hl
      · exact ⟨fun h => absurd h (by simp [wsHeader, listHeader, taskHeader, memberRow, grandRow]), fun _ => rfl,
          fun h => absurd h (by simp [wsHeader, listHeader, taskHeader, memberRow, grandRow]), fun h => absurd h (by simp [wsHeader, listHeader, taskHeader, memberRow, grandRow])⟩
      · rcases List.mem_flatMap.mp hl with ⟨t, _, ht⟩
        rcases List.mem_cons.mp ht with rfl | ht
        · exact ⟨fun _ => rfl, fun h => absurd h (by simp [wsHeader, listHeader, taskHeader, memberRow, grandRow]),
            fun h => absurd h (by simp [wsHeader, listHeader, taskHeader, memberRow, grandRow]), fun h => absurd h (by simp [wsHeader, listHeader, taskHeader, memberRow, grandRow])⟩
        · rcases List.mem_map.mp ht with ⟨m, _, rfl⟩
          exact ⟨fun h => absurd h (by simp [wsHeader, listHeader, taskHeader, memberRow, grandRow]), fun h => absurd h (by simp [wsHeader, listHeader, taskHeader, memberRow, grandRow]),
            fun h => absurd h (by simp [wsHeader, listHeader, taskHeader, memberRow, grandRow]), fun h => absurd h (by simp [wsHeader, listHeader, taskHeader, memberRow, grandRow])⟩
  · rcases List.mem_singleton.mp hgrand with rfl
    exact ⟨fun h => absurd h (by simp [wsHeader, listHeader, taskHeader, memberRow, grandRow]), fun h => absurd h (by simp [wsHeader, listHeader, taskHeader, memberRow, grandRow]),
      fun h => absurd h (by simp [wsHeader, listHeader, taskHeader, memberRow, grandRow]), fun _ => rfl⟩

/-! ### Concrete evaluations

Batteries marks the `Rat` arithmetic operations `@[irreducible]`; the kernel
is free to unfold them, and the concrete evaluations below need `decide` to
do the same, so they are restored to the default reducibility here (after
all the symbolic proofs above). -/

set_option allowUnsafeReducibility true

attribute [semireducible] Rat.add Rat.mul Rat.div Rat.sub Rat.inv Rat.neg

set_option maxRecDepth 4000

/-- C1 counterexample: with two members at 1.004 raw hours each on one task,
the member rows carry the rounded value 1 each, the round-sum of those
already-rounded child values is 2, yet the back-filled TASK header carries
2.01 = round(1.004 + 1.004, 2): the header is not the round-sum of its
children's rounded hours. -/
theorem c1_counterexample :
    (create_hierarchical_summary exDict).get? 2 =
      some { level := "TASK", workspace := "W", list_name := "L", task := "T"
             member := "", hours := some (201/100), entries := some 2 } ∧
    (create_hierarchical_summary exDict).get? 3 =
      some { level := "MEMBER", workspace := "W", list_name := "L", task := "T"
             member := "alice", hours := some 1, entries := some 1 } ∧
    (create_hierarchical_summary exDict).get? 4 =
      some { level := "MEMBER", workspace := "W", list_name := "L", task := "T"
             member := "bob", hours := some 1, entries := some 1 } ∧
    round2 (round2 (1004/1000) + round2 (1004/1000)) = 2 ∧
    ((201 : ℚ)/100) ≠ 2 := by
  refine ⟨by decide, by decide, by decide, by decide, by decide⟩

/-- C1 witness: the amended statement applied to the concrete TASK header. -/
theorem c1_header_hours_amended_witness :
    ({ level := "TASK", workspace := "W", list_name := "L", task := "T"
       member := "", hours := some (201/100 : ℚ), entries := some 2 } : Row).hours =
      some (round2 (taskTotal (allPairs exDict) "W" "L" "T")) :=
  ((c1_header_hours_amended exDict
    { level := "TASK", workspace := "W", list_name := "L", task := "T"
      member := "", hours := some (201/100 : ℚ), entries := some 2 }
    (by decide)).1) rfl

/-- C4 witness: fetching for [alice, bob] where bob's fetch raises records
bob with no entries and the error, and leaves alice's entries intact. -/
theorem c4_fetch_error_isolated_witness :
    dictLookup (fetch_entries_for_users exFetch [userAlice, userBob])
      userBob.username =
      some { user_info := userBob, entries := [], error := some "boom" } ∧
    dictLookup (fetch_entries_for_users exFetch [userAlice, userBob])
      userAlice.username =
      some { user_info := userAlice, entries := [entry1004], error := none } :=
  ⟨((c4_fetch_error_isolated exFetch [userAlice, userBob] (by decide)
      userBob (by decide)).2.1) "boom" rfl,
   ((c4_fetch_error_isolated exFetch [userAlice, userBob] (by decide)
      userAlice (by decide)).2.2) [entry1004] rfl⟩

/-- C5 witness: the one user of `exDictEmpty` fetched no entries and still
gets her zero row. -/
theorem c5_empty_user_row_witness :
    (get_user_summary exDictEmpty).length = exDictEmpty.length + 1 ∧
    ∃ i : ℕ, i < exDictEmpty.length ∧
      (get_user_summary exDictEmpty).get? i =
        some { person_name := "carol", total_entries := 0, total_hours := 0
               email := "c@x" } ∧
      ∀ j : ℕ, j < exDictEmpty.length → j ≠ i →
        ∀ r : UserSummaryRow, (get_user_summary exDictEmpty).get? j = some r →
          r.person_name ≠ "carol" :=
  c5_empty_user_row exDictEmpty (by decide) "carol"
    { user_info := { id := "3", username := "carol", email := "c@x" }
      entries := [], error := none }
    (by decide) rfl

/-- C6 witness: a 35-character name of invalid characters sanitises to
underscores and truncates to exactly 31 characters. -/
theorem c6_make_safe_sheet_name_witness :
    (make_safe_sheet_name (List.replicate 35 ':')).length = 31 :=
  (c6_make_safe_sheet_name (List.replicate 35 ':')).2.2 (by decide)

/-- C7 counterexample: a `TimeEntry` whose API `duration` field is
-3600000 ms (one hour of negative tracked time) has
`duration_hours = -1 < 0`: the non-negativity claim fails for
`TimeEntry.duration_hours`. -/
theorem c7_counterexample :
    (TimeEntryRec.from_api_response { duration := some (-3600000) }).duration_hours
      = -1 ∧
    ¬ (0 ≤ (TimeEntryRec.from_api_response
      { duration := some (-3600000) }).duration_hours) := by
  refine ⟨by decide, by decide⟩

/-- C7 witness: the amended non-negativity applied to a concrete entry with
a non-negative duration. -/
theorem c7_durations_nonneg_witness :
    0 ≤ ({ id := "", start_ms := 0, duration_ms := 3600000, task_name := ""
           task_url := "", description := "", delivery_name := ""
           workpackage_name := "" } : TimeEntryRec).duration_hours :=
  c7_durations_nonneg_amended.2
    { id := "", start_ms := 0, duration_ms := 3600000, task_name := ""
      task_url := "", description := "", delivery_name := ""
      workpackage_name := "" } (by decide)

end ClickUpExport
